import Mathlib

/-!
# Verification of the lantube indexing pipeline and delivery layer

A shallow embedding of the video-indexing server: the persistent index
(sqlite table `videos` and its two upsert statements), the orchestrator's
staleness test (`needsUpdate`) and indexing pass (`buildIndex`), the probe
and thumbnail pipeline (`probeDuration`, `makeThumbnail`, `clampTime`), the
path safety resolver (`resolveSafePath`), the schema initialisation
(`initDb` in its script and web-app variants), and the HTTP range handler
of the video route (`GET`).

JavaScript-specific behaviour is embedded explicitly: `||`/`?`/`!` truthiness
on numbers and strings, `??` null-coalescing, `Number.parseInt` /
`Number.parseFloat` digit-prefix parsing, `Promise.all` rejecting when any
member rejects, and `Array.prototype.reduce` keeping the earlier element on
ties.  External effects (ffprobe, ffmpeg, the filesystem) are passed in as
explicit oracle arguments describing the outcome of each call; machine reals
are modelled as rationals.
-/

namespace Lantube

/-! ## JavaScript primitives -/

/-- JS numeric falsiness for a nullable number column: `!x` is true for
`null` and for `0` (the `!existing.duration` test in `buildIndex`). -/
def jsFalsyNum : Option ℚ → Bool
  | none => true
  | some q => q == 0

/-- JS `a || b` on nullable numbers: `a` unless `a` is falsy (used for
`stat.birthtimeMs || stat.ctimeMs || Date.now()`). -/
def jsOrQ (a b : ℚ) : ℚ :=
  if a == 0 then b else a

/-- Digit-prefix value of a list of decimal digit characters. -/
def digitsVal (ds : List Char) : ℕ :=
  ds.foldl (fun n c => n * 10 + (c.toNat - 48)) 0

/-- `Number.parseInt(s, 10)` for the sign-free strings produced by splitting
a Range header on `-`: the longest leading digit run, `none` for NaN. -/
def jsParseIntChars (l : List Char) : Option ℕ :=
  let ds := l.takeWhile Char.isDigit
  if ds = [] then none else some (digitsVal ds)

/-- `Number.parseFloat` for the non-negative decimal strings printed by
ffprobe (`<digits>` or `<digits>.<digits>`): `none` models NaN. -/
def jsParseFloatChars (l : List Char) : Option ℚ :=
  let ds := l.takeWhile Char.isDigit
  if ds = [] then none
  else
    match l.drop ds.length with
    | '.' :: rest =>
      let fs := rest.takeWhile Char.isDigit
      some ((digitsVal ds : ℚ) + (digitsVal fs : ℚ) / ((10 : ℚ) ^ fs.length))
    | _ => some (digitsVal ds)

/-- `String.prototype.trim`. -/
def jsTrim (l : List Char) : List Char :=
  ((l.dropWhile Char.isWhitespace).reverse.dropWhile Char.isWhitespace).reverse

/-- `Promise.all`: resolves with the list of results when every member
resolves, rejects as soon as any member rejects. -/
def promiseAll {α : Type} : List (Option α) → Option (List α)
  | [] => some []
  | none :: _ => none
  | some a :: xs => (promiseAll xs).map fun rest => a :: rest

/-! ## Data model: the `videos` table

One row per indexed file, keyed by relative path (`path TEXT PRIMARY KEY`).
`REAL`/`INTEGER` columns are `Option`-valued where the schema is nullable;
`thumbError` is the `INTEGER DEFAULT 0` flag written as `0` or `1`. -/

structure Row where
  path : String
  folder : String
  name : String
  duration : Option ℚ
  createdAt : Option ℤ
  thumb : Option String
  updatedAt : Option ℤ
  thumbError : ℕ
deriving DecidableEq, Repr

/-- The store, keyed by relative path. -/
def DB : Type := String → Option Row

def dbEmpty : DB := fun _ => none

/-- The success upsert of `indexSingle`:
`INSERT ... ON CONFLICT(path) DO UPDATE SET` every column from `excluded`,
i.e. a full overwrite with `thumbError = 0`. -/
def successUpsert (db : DB) (rel folder name : String) (duration : Option ℚ)
    (createdAt : ℤ) (thumbRel : String) (updatedAt : ℤ) : DB :=
  fun p =>
    if p = rel then
      some { path := rel, folder := folder, name := name, duration := duration,
             createdAt := some createdAt, thumb := some thumbRel,
             updatedAt := some updatedAt, thumbError := 0 }
    else db p

/-- The failure upsert of `indexSingle`'s catch branch: the `VALUES` tuple
carries nulls for `duration`, `createdAt`, `thumb`, but
`ON CONFLICT(path) DO UPDATE SET` only assigns `updatedAt`, `thumbError`
and `thumb` — an existing row keeps its old `folder`, `name`, `duration`
and `createdAt`. -/
def failureUpsert (db : DB) (rel folder name : String) (updatedAt : ℤ) : DB :=
  fun p =>
    if p = rel then
      match db rel with
      | none =>
        some { path := rel, folder := folder, name := name, duration := none,
               createdAt := none, thumb := none,
               updatedAt := some updatedAt, thumbError := 1 }
      | some old =>
        some { old with updatedAt := some updatedAt, thumbError := 1, thumb := none }
    else db p

/-- `DELETE FROM videos WHERE path = ?`. -/
def deleteRow (db : DB) (rel : String) : DB :=
  fun p => if p = rel then none else db p

/-- The three statements that write to the `videos` table. -/
inductive Write where
  | success (rel folder name : String) (duration : Option ℚ)
      (createdAt : ℤ) (thumbRel : String) (updatedAt : ℤ)
  | failure (rel folder name : String) (updatedAt : ℤ)
  | delete (rel : String)

def applyWrite (db : DB) : Write → DB
  | .success rel folder name duration createdAt thumbRel updatedAt =>
    successUpsert db rel folder name duration createdAt thumbRel updatedAt
  | .failure rel folder name updatedAt =>
    failureUpsert db rel folder name updatedAt
  | .delete rel => deleteRow db rel

def applyWrites (db : DB) (ws : List Write) : DB :=
  ws.foldl applyWrite db

/-! ## Orchestrator staleness test -/

/-- The `needsUpdate` expression of `buildIndex` (per discovered file):
`!existing || (!hasThumbError && (!thumbExists || !existing.duration)) ||
(existing.updatedAt ?? 0) < updatedAt`, where
`hasThumbError = existing?.thumbError === 1` and `updatedAt` is the floored
modification time of the file on disk. -/
def needsUpdate (existing : Option Row) (thumbExists : Bool) (updatedAt : ℤ) : Bool :=
  let hasThumbError := existing.elim false fun r => r.thumbError == 1
  existing.isNone ||
    (!hasThumbError && (!thumbExists || jsFalsyNum (existing.bind Row.duration))) ||
    decide (((existing.bind Row.updatedAt).getD 0) < updatedAt)

/-! ## Path model (node:path, posix)

Paths are manipulated as character lists; a path splits into segments at
`'/'`.  `path.resolve` / `path.relative` / `path.basename` / `path.extname`
/ `path.dirname` are embedded for posix paths with an absolute first
argument (the configured `targetDir` is absolutised at startup with
`path.resolve(env.TARGET_DIRECTORY)`). -/

/-- One path segment (no `'/'` inside). -/
abbrev Seg := List Char

/-- `String.prototype.split(sep)` for a one-character separator. -/
def splitChar (c : Char) (l : List Char) : List (List Char) :=
  l.foldr (fun x acc => if x = c then [] :: acc else (x :: acc.headD []) :: acc.tail) [[]]

/-- The non-empty segments of a path string. -/
def splitSegs (l : List Char) : List Seg :=
  (splitChar '/' l).filter (· ≠ [])

/-- Normalisation of an absolute path's segments: `"."` disappears, `".."`
pops the previous segment (and is dropped at the root), anything else is
kept — the normalisation `path.resolve` applies. -/
def normSegs (segs : List Seg) : List Seg :=
  segs.foldl
    (fun acc seg =>
      if seg = ['.'] then acc
      else if seg = ['.', '.'] then acc.dropLast
      else acc ++ [seg]) []

/-- `path.isAbsolute` (posix). -/
def jsIsAbsolute (l : List Char) : Bool :=
  l.head? == some '/'

/-- `path.resolve(base, p)` for an absolute `base`, as normalised segments:
an absolute `p` wins, otherwise `p` is appended to `base`. -/
def pathResolve (base p : List Char) : List Seg :=
  if jsIsAbsolute p then normSegs (splitSegs p)
  else normSegs (splitSegs base ++ splitSegs p)

/-- Length of the common segment prefix of two resolved paths. -/
def commonLen : List Seg → List Seg → ℕ
  | a :: as, b :: bs => if a = b then commonLen as bs + 1 else 0
  | _, _ => 0

/-- `path.relative(fromSegs, toSegs)` on resolved segment lists: one `".."`
per remaining `from` segment, then the remaining `to` segments. -/
def pathRelativeSegs (fromSegs toSegs : List Seg) : List Seg :=
  List.replicate (fromSegs.length - commonLen fromSegs toSegs) ['.', '.'] ++
    toSegs.drop (commonLen fromSegs toSegs)

/-- `Array.prototype.join("/")` over segments, as characters. -/
def joinTail : List Seg → List Char
  | [] => []
  | s :: rest => '/' :: (s ++ joinTail rest)

def joinSegs : List Seg → List Char
  | [] => []
  | s :: rest => s ++ joinTail rest

/-- The absolute path string denoted by resolved segments. -/
def absString (segs : List Seg) : String :=
  String.mk ('/' :: joinSegs segs)

/-- `resolveSafePath` (src path-utils): resolve the caller-supplied path
against `targetDir`, take `path.relative(targetDir, abs)`, and throw
`"Invalid path"` when that relative string starts with `".."` or is
absolute; otherwise return the resolved absolute path. -/
def resolveSafePath (targetDir relPath : String) : Except String String :=
  let abs := pathResolve targetDir.data relPath.data
  let rel := joinSegs (pathRelativeSegs (normSegs (splitSegs targetDir.data)) abs)
  if ['.', '.'].isPrefixOf rel || jsIsAbsolute rel then
    Except.error "Invalid path"
  else
    Except.ok (absString abs)

/-- `path.basename(p)`: the last segment (discovered relative paths have no
trailing slash). -/
def baseNameChars (l : List Char) : List Char :=
  (splitChar '/' l).getLastD []

/-- `path.extname(p)`: from the last `'.'` of the basename, unless that dot
is its first character. -/
def extnameChars (l : List Char) : List Char :=
  let b := baseNameChars l
  let r := b.reverse.takeWhile (· ≠ '.')
  if r.length + 1 < b.length then '.' :: r.reverse else []

/-- `path.basename(p, path.extname(p))`: display name of a video file. -/
def nameOf (rel : String) : String :=
  let b := baseNameChars rel.data
  let e := extnameChars rel.data
  String.mk (b.take (b.length - e.length))

/-- `path.dirname(rel)` mapped through the `"." → ""` adjustment of
`indexSingle`: parent directory, empty for the root. -/
def folderOf (rel : String) : String :=
  let segs := splitChar '/' rel.data
  let dir := joinSegs segs.dropLast
  if dir = [] then "" else String.mk dir

/-! ## Media inspector: `probeDuration`

`probeDuration` runs ffprobe, parses `parseFloat(stdout.trim())` and returns
the value when `Number.isFinite` holds, `null` otherwise; a thrown subprocess
error is caught and also yields `null`.  The subprocess outcome is passed in
as `none` (throw) or `some stdout`; every rational parse result is finite. -/

def probeDuration (ffprobeResult : Option String) : Option ℚ :=
  match ffprobeResult with
  | none => none
  | some stdout =>
    match jsParseFloatChars (jsTrim stdout.data) with
    | some value => some value
    | none => none

/-! ## Thumbnail generator -/

/-- `clampTime`: clamp a candidate timestamp into `[1, max(1, duration - 0.2)]`,
returning `1` when the duration is not a positive finite number. -/
def clampTime (value duration : ℚ) : ℚ :=
  if duration ≤ 0 then 1
  else min (max value 1) (max 1 (duration - 1/5))

/-- The five sampling ratios `(i + 0.5) / 5` for `i` in `0..4`. -/
def thumbPicks : List ℚ :=
  (List.range 5).map fun i => ((i : ℚ) + 1/2) / 5

/-- The five candidate timestamps for a known duration. -/
def thumbTimes (duration : ℚ) : List ℚ :=
  thumbPicks.map fun ratio => clampTime (duration * ratio) duration

/-- Temporary candidate file `${outputPath}.tmp-${index}.jpg`. -/
def tmpName (outputPath : String) (index : ℕ) : String :=
  outputPath ++ ".tmp-" ++ toString index ++ ".jpg"

/-- A written candidate frame: its temporary path and encoded byte size
(`fs.stat(tmpPath).size`). -/
structure Candidate where
  path : String
  size : ℕ
deriving DecidableEq, Repr

/-- The `candidates.reduce((prev, current) => current.size > prev.size ?
current : prev)` step: strict `>` keeps the earlier candidate on ties. -/
def reduceBest (c : Candidate) (cs : List Candidate) : Candidate :=
  cs.foldl (fun prev current => if current.size > prev.size then current else prev) c

/-- `fs.unlink(path).catch(() => undefined)`: the deletion attempt always
resolves, whether or not the unlink itself succeeded. -/
def unlinkAttempt (_unlinkOk : Bool) : Option Unit :=
  some ()

/-- The five candidate extractions of smart mode, one ffmpeg call per pick
(`picks.map(async (ratio, index) => ...)`, with `ratio = (index + 0.5)/5`)
at the clamped timestamp; `extractAt index time` is the subprocess outcome —
`none` when ffmpeg threw, `some size` for the byte size of the written frame. -/
def smartCandidates (outputPath : String) (duration : ℚ)
    (extractAt : ℕ → ℚ → Option ℕ) : List (Option Candidate) :=
  (List.range 5).map fun (index : ℕ) =>
    let ratio : ℚ := ((index : ℚ) + 1/2) / 5
    (extractAt index (clampTime (duration * ratio) duration)).map fun sz =>
      Candidate.mk (tmpName outputPath index) sz

/-- Smart-mode `makeThumbnail` after the duration guard: `Promise.all` over
the five candidate extractions (rejecting if any rejects), `reduce` to the
largest candidate, `fs.rename` it into place, and best-effort unlink of the
others.  Returns `none` when the operation throws, otherwise the installed
candidate's temporary path, the removed temporary paths, and the (always
resolved) outcomes of the deletion attempts. -/
def makeThumbnailSmart (outputPath : String) (duration : ℚ)
    (extractAt : ℕ → ℚ → Option ℕ) (unlinkOk : String → Bool) :
    Option (String × List String × List (Option Unit)) :=
  match promiseAll (smartCandidates outputPath duration extractAt) with
  | none => none
  | some [] => none
  | some (c :: cs) =>
    let best := reduceBest c cs
    let leftovers := (c :: cs).filter fun item => item.path ≠ best.path
    some (best.path, leftovers.map (·.path),
          leftovers.map fun item => unlinkAttempt (unlinkOk item.path))

/-! ## Indexing orchestrator

`buildIndex` walks the target directory, decides `needsUpdate` per file
against a snapshot of the `videos` table and of the thumbnail files on disk,
deletes rows whose file is gone, and then runs `indexSingle` for each stale
file.  The bounded worker pool drains tasks that touch pairwise distinct
rows, so the final state is that of running them in list order.  ffprobe,
ffmpeg and sha1 are oracles: `probe rel` is `probeDuration`'s result,
`thumbOk rel` tells whether `makeThumbnail` returned or threw, and
`hash rel` is the 16-hex-character digest prefix used for thumbnail names. -/

/-- One discovered video file: relative path and `fs.stat` timestamps. -/
structure FileEntry where
  rel : String
  mtimeMs : ℚ
  birthtimeMs : ℚ
  ctimeMs : ℚ
deriving DecidableEq, Repr

/-- `getThumbRelPath`: `path.join("thumbs", hash(rel).slice(0, 16) + ".jpg")`. -/
def getThumbRelPath (hash : String → String) (rel : String) : String :=
  "thumbs/" ++ hash rel ++ ".jpg"

/-- The mutable state an indexing pass reads and writes: the `videos` table
and the set of thumbnail files present in the cache directory. -/
@[ext]
structure SysState where
  db : DB
  thumbs : List String

/-- `Math.floor(stat.birthtimeMs || stat.ctimeMs || Date.now())`. -/
def createdAtOf (f : FileEntry) (now : ℤ) : ℤ :=
  ⌊jsOrQ f.birthtimeMs (jsOrQ f.ctimeMs (now : ℚ))⌋

/-- `indexSingle`: probe the duration (never throws), derive `createdAt`,
`name` and `folder`, generate the thumbnail, and record the outcome — the
success upsert and a newly written thumbnail file when `makeThumbnail`
returned, the failure upsert when it threw.  The `catch` wrapper makes this
total: an individual failure never escapes to the pass. -/
def indexSingleState (hash : String → String) (probe : String → Option ℚ)
    (thumbOk : String → Bool) (now : ℤ) (f : FileEntry) (st : SysState) : SysState :=
  let updatedAt : ℤ := ⌊f.mtimeMs⌋
  let thumbRel := getThumbRelPath hash f.rel
  if thumbOk f.rel then
    { db := successUpsert st.db f.rel (folderOf f.rel) (nameOf f.rel)
        (probe f.rel) (createdAtOf f now) thumbRel updatedAt,
      thumbs := thumbRel :: st.thumbs }
  else
    { db := failureUpsert st.db f.rel (folderOf f.rel) (nameOf f.rel) updatedAt,
      thumbs := st.thumbs }

/-- The row `indexSingle` leaves for its file, as a function of the row the
store previously held for that path. -/
def indexedRow (hash : String → String) (probe : String → Option ℚ)
    (thumbOk : String → Bool) (now : ℤ) (f : FileEntry) (old : Option Row) : Row :=
  if thumbOk f.rel then
    { path := f.rel, folder := folderOf f.rel, name := nameOf f.rel,
      duration := probe f.rel, createdAt := some (createdAtOf f now),
      thumb := some (getThumbRelPath hash f.rel),
      updatedAt := some ⌊f.mtimeMs⌋, thumbError := 0 }
  else
    match old with
    | none =>
      { path := f.rel, folder := folderOf f.rel, name := nameOf f.rel,
        duration := none, createdAt := none, thumb := none,
        updatedAt := some ⌊f.mtimeMs⌋, thumbError := 1 }
    | some o =>
      { o with updatedAt := some ⌊f.mtimeMs⌋, thumbError := 1, thumb := none }

/-- The work list of a pass: the discovered files whose `needsUpdate` is true
against the state snapshot taken at the start of the pass (`fileExists` on
the thumbnail artifact is membership in the on-disk thumbnail set). -/
def workList (hash : String → String) (files : List FileEntry) (st : SysState) :
    List FileEntry :=
  files.filter fun f =>
    needsUpdate (st.db f.rel)
      (decide (getThumbRelPath hash f.rel ∈ st.thumbs)) ⌊f.mtimeMs⌋

/-- `runWithConcurrency(tasks, MAX_CONCURRENCY)`: the pool drains the task
queue; the tasks of one pass touch pairwise distinct rows and only add
thumbnail files, so the final state is that of running them in queue order. -/
def runTasks (hash : String → String) (probe : String → Option ℚ)
    (thumbOk : String → Bool) (now : ℤ) (fs : List FileEntry)
    (st : SysState) : SysState :=
  fs.foldl (fun acc f => indexSingleState hash probe thumbOk now f acc) st

/-- One full `buildIndex` pass: compute the work list and the `seen` set from
the snapshot, delete every row whose path was not discovered, then run the
per-file tasks. -/
def buildIndexPass (hash : String → String) (probe : String → Option ℚ)
    (thumbOk : String → Bool) (now : ℤ) (files : List FileEntry)
    (st : SysState) : SysState :=
  let seen := files.map FileEntry.rel
  let afterDelete : SysState :=
    { db := fun p => if p ∈ seen then st.db p else none,
      thumbs := st.thumbs }
  runTasks hash probe thumbOk now (workList hash files st) afterDelete

/-! ## Streaming delivery: the video route's `GET` handler

The handler stats the file, reads the `Range` header, and answers 200, 206
or 416.  Only the response metadata and the byte span handed to
`fs.createReadStream` are modelled; `end` is an `Option ℤ` whose `none`
models a NaN produced by an unparsable explicit end (`end < start` is false
for NaN, and NaN prints as `"NaN"`). -/

/-- What is streamed back: nothing (416), the whole file (200), or
`fs.createReadStream(absPath, { start, end })` (206). -/
inductive RespBody where
  | empty : RespBody
  | fullFile : RespBody
  | span (start : ℕ) (stop : Option ℤ) : RespBody
deriving DecidableEq, Repr

structure VideoResponse where
  status : ℕ
  contentRange : Option String
  contentLength : Option String
  acceptRanges : Bool
  body : RespBody
deriving DecidableEq, Repr

/-- JS number-to-string for an integer-or-NaN value. -/
def jsNumToString : Option ℤ → String
  | none => "NaN"
  | some n => toString n

/-- `String.prototype.replace(/bytes=/, "")`: remove the first occurrence of
a literal pattern. -/
def removeOnce (pat : List Char) : List Char → List Char
  | [] => []
  | x :: xs =>
    if pat.isPrefixOf (x :: xs) then (x :: xs).drop pat.length
    else x :: removeOnce pat xs

/-- The 416 response: `Content-Range: bytes */<size>`, no body, no other
headers. -/
def resp416 (fileSize : ℕ) : VideoResponse :=
  { status := 416,
    contentRange := some ("bytes */" ++ toString fileSize),
    contentLength := none, acceptRanges := false, body := .empty }

/-- The branch on the parsed range values:
`if (Number.isNaN(start) || start >= fileSize || end < start)` answer 416,
otherwise 206 with `Content-Range: bytes start-end/size` and
`Content-Length = end - start + 1`, streaming `{ start, end }`. -/
def rangeDecision (fileSize : ℕ) (start : Option ℕ) (stop : Option ℤ) :
    VideoResponse :=
  match start with
  | none => resp416 fileSize
  | some s =>
    if fileSize ≤ s then resp416 fileSize
    else if stop.elim false (fun e => decide (e < (s : ℤ))) then
      resp416 fileSize
    else
      { status := 206,
        contentRange := some ("bytes " ++ toString s ++ "-" ++ jsNumToString stop
          ++ "/" ++ toString fileSize),
        contentLength := some (jsNumToString (stop.map fun e => e - (s : ℤ) + 1)),
        acceptRanges := true,
        body := .span s stop }

/-- The `GET` handler for a file of the given size: no `Range` header gives
200 with the exact length and `Accept-Ranges: bytes`; otherwise the header
is stripped of `bytes=`, split on `-`, `start` is parsed, `end` defaults to
`fileSize - 1` when the second piece is missing or empty, and
`rangeDecision` answers. -/
def videoGET (fileSize : ℕ) (rangeHeader : Option String) : VideoResponse :=
  match rangeHeader with
  | none =>
    { status := 200, contentRange := none,
      contentLength := some (toString fileSize),
      acceptRanges := true, body := .fullFile }
  | some range =>
    let parts := splitChar '-' (removeOnce "bytes=".data range.data)
    let startStr := parts.headD []
    let start := jsParseIntChars startStr
    let stop : Option ℤ :=
      match parts.get? 1 with
      | some es => if es ≠ [] then (jsParseIntChars es).map Int.ofNat
                   else some ((fileSize : ℤ) - 1)
      | none => some ((fileSize : ℤ) - 1)
    rangeDecision fileSize start stop

/-! ## Persistent index schema initialisation

Three `initDb` variants exist in the repository: the standalone indexer
script creates the full schema and then checks `PRAGMA table_info(videos)`,
adding the `thumbError` column when missing; the web app's db module only
issues `CREATE TABLE IF NOT EXISTS` (its migration block is commented out);
an earlier db module created the table without `thumbError` at all.  Only
the `videos` table's existence and column list matter here. -/

structure DbSchema where
  tableExists : Bool
  columns : List String
deriving DecidableEq, Repr

def emptyDbSchema : DbSchema := { tableExists := false, columns := [] }

def newTableColumns : List String :=
  ["path", "folder", "name", "duration", "createdAt", "thumb", "updatedAt", "thumbError"]

def oldTableColumns : List String :=
  ["path", "folder", "name", "duration", "createdAt", "thumb", "updatedAt"]

/-- `CREATE TABLE IF NOT EXISTS videos (...)`: a no-op on an existing table. -/
def createTableIfNotExists (cols : List String) (s : DbSchema) : DbSchema :=
  if s.tableExists then s else { tableExists := true, columns := cols }

/-- `ALTER TABLE videos ADD COLUMN thumbError INTEGER DEFAULT 0`. -/
def addThumbErrorColumn (s : DbSchema) : DbSchema :=
  { s with columns := s.columns ++ ["thumbError"] }

/-- `initDb` of the standalone indexer script: create-if-missing with the
full schema, then the `PRAGMA table_info` probe and the additive migration
when `thumbError` is absent. -/
def initDbScript (s : DbSchema) : DbSchema :=
  let s1 := createTableIfNotExists newTableColumns s
  if s1.columns.contains "thumbError" then s1 else addThumbErrorColumn s1

/-- `initDb` of the web app's db module: create-if-missing only — the
`PRAGMA`/`ALTER TABLE` migration is commented out. -/
def initDbWeb (s : DbSchema) : DbSchema :=
  createTableIfNotExists newTableColumns s

/-- `initDb` of the earlier db module (`src/lib/db.ts`): create-if-missing
without a `thumbError` column; used to build a pre-migration store. -/
def initDbOld (s : DbSchema) : DbSchema :=
  createTableIfNotExists oldTableColumns s

/-! ## Spec-side definitions for refinement comparisons -/

/-- The staleness condition with the claim's words (C1 as stated): no record,
or the modification time exceeds the stored `updatedAt`, or no prior failure
flag and (no thumbnail artifact or the stored duration is **null**). -/
def claimNeedsUpdate (existing : Option Row) (thumbExists : Bool) (updatedAt : ℤ) : Bool :=
  match existing with
  | none => true
  | some r =>
    decide (r.updatedAt.getD 0 < updatedAt) ||
      (r.thumbError != 1 && (!thumbExists || r.duration == none))

/-- The staleness condition as the code has it, in the claim's phrasing with
the one forced change: the stored duration is **null or zero** (the code's
JS truthiness test `!existing.duration`). -/
def amendedNeedsUpdate (existing : Option Row) (thumbExists : Bool) (updatedAt : ℤ) : Bool :=
  match existing with
  | none => true
  | some r =>
    decide (r.updatedAt.getD 0 < updatedAt) ||
      (r.thumbError != 1 &&
        (!thumbExists || (r.duration == none || r.duration == some 0)))

/-! ## Concrete fixtures used by counterexamples and witnesses -/

/-- A healthy-looking record whose stored duration is zero. -/
def zeroDurationRow : Row :=
  { path := "a.mp4", folder := "", name := "a", duration := some 0,
    createdAt := some 1, thumb := some "thumbs/aa.jpg",
    updatedAt := some 5, thumbError := 0 }

/-- A record in the failed state. -/
def failedRow : Row :=
  { path := "b.mp4", folder := "", name := "b", duration := none,
    createdAt := none, thumb := none, updatedAt := some 5, thumbError := 1 }

/-- A discovered file. -/
def sampleFile : FileEntry :=
  { rel := "a.mp4", mtimeMs := 100, birthtimeMs := 50, ctimeMs := 60 }

/-- A frame-extraction oracle whose second candidate (index 1) fails and
whose other four candidates succeed. -/
def oneFailingExtract : ℕ → ℚ → Option ℕ :=
  fun i _ => if i = 1 then none else some 100

/-- A frame-extraction oracle producing candidate byte sizes
`[10, 40, 25, 40, 5]` by index. -/
def fiveSizesExtract : ℕ → ℚ → Option ℕ :=
  fun i _ => some ([10, 40, 25, 40, 5].getD i 0)

end Lantube

namespace Lantube

/-! ## Claim C1 — the staleness test -/

/-- C1, counterexample: a record with `thumbError = 0`, an existing thumbnail
artifact, an unchanged modification time and a stored duration of **zero**
(not null) is marked for re-indexing by the code, while the claim's
condition — which requires a *null* duration — says it must not be: the
claimed "exactly when" equivalence is false at this input. -/
theorem needsUpdate_claim_false_at_zero_duration :
    needsUpdate (some zeroDurationRow) true 5 = true ∧
    claimNeedsUpdate (some zeroDurationRow) true 5 = false := by
  constructor <;> rfl

/-- C1, amended: a file is marked for (re)indexing exactly when there is no
record, or the floored modification time exceeds the stored `updatedAt`
(null read as 0), or the record has no failure flag and (no thumbnail
artifact exists or the stored duration is null **or zero**); and for every
record whose `thumbError` flag is set, only a modification time exceeding
the stored `updatedAt` triggers a retry. -/
theorem needsUpdate_spec :
    (∀ (existing : Option Row) (thumbExists : Bool) (updatedAt : ℤ),
      needsUpdate existing thumbExists updatedAt =
        amendedNeedsUpdate existing thumbExists updatedAt) ∧
    (∀ (r : Row) (thumbExists : Bool) (updatedAt : ℤ), r.thumbError = 1 →
      (needsUpdate (some r) thumbExists updatedAt = true ↔
        r.updatedAt.getD 0 < updatedAt)) := by
  constructor
  · intro existing thumbExists updatedAt
    cases existing with
    | none => rfl
    | some r =>
      cases hd : r.duration with
      | none =>
        simp [needsUpdate, amendedNeedsUpdate, jsFalsyNum, hd, bne, Bool.or_comm]
      | some q =>
        simp only [needsUpdate, amendedNeedsUpdate, jsFalsyNum, hd, bne,
          Option.elim, Option.isNone, Option.bind, Bool.false_or]
        cases hq : (q == 0) <;>
          simp [hq, Bool.or_comm, Bool.and_comm, Bool.or_assoc, Bool.and_assoc]
  · intro r thumbExists updatedAt h
    simp [needsUpdate, h]

/-- C1 witness: the amended equivalence evaluated at the failed fixture —
its thumbnail is absent and its duration null, yet with an unchanged
modification time it is not retried. -/
theorem needsUpdate_spec_witness :
    needsUpdate (some failedRow) false 5 = false := by
  have h := (needsUpdate_spec.2 failedRow false 5 rfl)
  simp only [failedRow] at h ⊢
  by_contra hc
  simp only [Bool.not_eq_false] at hc
  have := h.mp hc
  simp at this

end Lantube

namespace Lantube

/-! ## Claim C2 — what the failure upsert actually wipes -/

/-- The part of the claimed invariant that does survive every write. -/
def ThumbWipedInv (db : DB) : Prop :=
  ∀ p r, db p = some r → r.thumbError = 1 → r.thumb = none

theorem thumbWipedInv_empty : ThumbWipedInv dbEmpty := by
  intro p r h
  simp [dbEmpty] at h

theorem thumbWipedInv_step {db : DB} (h : ThumbWipedInv db) (w : Write) :
    ThumbWipedInv (applyWrite db w) := by
  cases w with
  | success rel folder name duration createdAt thumbRel updatedAt =>
    intro p r hp he
    by_cases hpr : p = rel
    · simp [applyWrite, successUpsert, hpr] at hp
      rw [← hp] at he
      simp at he
    · simp [applyWrite, successUpsert, hpr] at hp
      exact h p r hp he
  | failure rel folder name updatedAt =>
    intro p r hp _he
    by_cases hpr : p = rel
    · simp only [applyWrite, failureUpsert, hpr, if_pos] at hp
      cases hold : db rel with
      | none => rw [hold] at hp; simp at hp; rw [← hp]
      | some old => rw [hold] at hp; simp at hp; rw [← hp]
    · simp [applyWrite, failureUpsert, hpr] at hp
      exact h p r hp _he
  | delete rel =>
    intro p r hp he
    by_cases hpr : p = rel
    · simp [applyWrite, deleteRow, hpr] at hp
    · simp [applyWrite, deleteRow, hpr] at hp
      exact h p r hp he

/-- C2, counterexample: starting from the empty store, a success upsert for
`"a.mp4"` (duration 5, createdAt 7) followed by a failure upsert for the
same path leaves a record with `thumbError = 1` whose `duration` and
`createdAt` still hold the old successful metadata — the failure upsert's
`ON CONFLICT ... DO UPDATE` assigns only `updatedAt`, `thumbError` and
`thumb`, so the claimed invariant is false in this reachable state. -/
theorem failureUpsert_keeps_stale_metadata :
    applyWrites dbEmpty
        [Write.success "a.mp4" "" "a" (some 5) 7 "thumbs/aa.jpg" 10,
         Write.failure "a.mp4" "" "a" 20] "a.mp4" =
      some { path := "a.mp4", folder := "", name := "a", duration := some 5,
             createdAt := some 7, thumb := none, updatedAt := some 20,
             thumbError := 1 } := by
  rfl

/-- C2, amended: in every store reachable from empty by success upserts,
failure upserts and deletes, a record with `thumbError = 1` has `thumb`
null; and a failure upsert that *creates* the record (no prior row for the
path) stores null `duration`, `createdAt` and `thumb`.  (A failure that
overwrites an existing row preserves that row's `duration` and
`createdAt`.) -/
theorem thumbError_implies_thumb_none :
    (∀ (ws : List Write) (p : String) (r : Row),
      applyWrites dbEmpty ws p = some r → r.thumbError = 1 → r.thumb = none) ∧
    (∀ (rel folder name : String) (updatedAt : ℤ),
      failureUpsert dbEmpty rel folder name updatedAt rel =
        some { path := rel, folder := folder, name := name, duration := none,
               createdAt := none, thumb := none,
               updatedAt := some updatedAt, thumbError := 1 }) := by
  constructor
  · have main : ∀ (ws : List Write) (db : DB), ThumbWipedInv db →
        ThumbWipedInv (applyWrites db ws) := by
      intro ws
      induction ws with
      | nil => intro db h; exact h
      | cons w rest ih =>
        intro db h
        exact ih (applyWrite db w) (thumbWipedInv_step h w)
    intro ws p r hp he
    exact main ws dbEmpty thumbWipedInv_empty p r hp he
  · intro rel folder name updatedAt
    simp [failureUpsert, dbEmpty]

/-- C2 witness: the invariant applied to a concrete write sequence. -/
theorem thumbError_implies_thumb_none_witness :
    ({ path := "a.mp4", folder := "", name := "a", duration := some 5,
       createdAt := some 7, thumb := none, updatedAt := some 20,
       thumbError := 1 } : Row).thumb = none := by
  exact thumbError_implies_thumb_none.1
    [Write.success "a.mp4" "" "a" (some 5) 7 "thumbs/aa.jpg" 10,
     Write.failure "a.mp4" "" "a" 20] "a.mp4" _ rfl rfl

end Lantube

namespace Lantube

/-! ## Claim C9 — the `thumbError` migration -/

/-- C9, counterexample: a pre-existing store created by the earlier schema
(no `thumbError` column) is *not* upgraded when opened through the web
app's `initDb` — its migration block is commented out and `CREATE TABLE IF
NOT EXISTS` is a no-op on an existing table — so a query selecting
`thumbError` fails against it. -/
theorem initDbWeb_no_migration :
    (initDbWeb (initDbOld emptyDbSchema)).columns.contains "thumbError" = false := by
  rfl

/-- C9, amended: only the standalone indexer script's `initDb` performs the
additive migration — after it runs, the `thumbError` column exists whatever
the prior schema was; the web app's `initDb` leaves any existing table
untouched (so an old store opened only by the web app keeps lacking the
column). -/
theorem initDb_migration_spec :
    (∀ s : DbSchema, (initDbScript s).columns.contains "thumbError" = true) ∧
    (∀ s : DbSchema, s.tableExists = true → initDbWeb s = s) := by
  constructor
  · intro s
    by_cases hex : s.tableExists
    · simp only [initDbScript, createTableIfNotExists, hex, if_pos]
      by_cases hc : "thumbError" ∈ s.columns
      · simp [hc]
      · simp [hc, addThumbErrorColumn]
    · simp only [Bool.not_eq_true] at hex
      simp [initDbScript, createTableIfNotExists, hex, newTableColumns]
  · intro s h
    simp [initDbWeb, createTableIfNotExists, h]

/-- C9 witness: the web app's `initDb` applied to the old-schema store is a
no-op. -/
theorem initDb_migration_spec_witness :
    initDbWeb (initDbOld emptyDbSchema) = initDbOld emptyDbSchema := by
  exact initDb_migration_spec.2 (initDbOld emptyDbSchema) rfl

end Lantube

namespace Lantube

/-! ## Claim C5 — HTTP range semantics of the video route -/

/-- C5, confirmed: with no `Range` header the response is 200 with
`Content-Length` equal to the file size and `Accept-Ranges: bytes`; a parsed
in-bounds range (`start < size`, `start ≤ end`) yields 206 with
`Content-Range: bytes start-end/size`, `Content-Length = end - start + 1`
and exactly that byte span as body; a violation of those bounds (including
an unparsable start) yields 416 with `Content-Range: bytes */size` and no
body; and the three concrete size-1000 exchanges of the claim, plus an
open-ended `bytes=200-` defaulting to the file end. -/
theorem videoGET_range_spec :
    (∀ size : ℕ, videoGET size none =
      { status := 200, contentRange := none,
        contentLength := some (toString size),
        acceptRanges := true, body := .fullFile }) ∧
    (∀ (size s : ℕ) (e : ℤ), s < size → (s : ℤ) ≤ e →
      rangeDecision size (some s) (some e) =
        { status := 206,
          contentRange := some ("bytes " ++ toString s ++ "-" ++ toString e
            ++ "/" ++ toString size),
          contentLength := some (toString (e - (s : ℤ) + 1)),
          acceptRanges := true, body := .span s (some e) }) ∧
    (∀ (size s : ℕ) (e : ℤ), size ≤ s ∨ e < (s : ℤ) →
      rangeDecision size (some s) (some e) = resp416 size) ∧
    (∀ size : ℕ, rangeDecision size none (some ((size : ℤ) - 1)) = resp416 size) ∧
    videoGET 1000 (some "bytes=200-299") =
      { status := 206, contentRange := some "bytes 200-299/1000",
        contentLength := some "100", acceptRanges := true,
        body := .span 200 (some 299) } ∧
    videoGET 1000 (some "bytes=2000-") = resp416 1000 ∧
    videoGET 1000 none =
      { status := 200, contentRange := none, contentLength := some "1000",
        acceptRanges := true, body := .fullFile } ∧
    videoGET 1000 (some "bytes=200-") =
      { status := 206, contentRange := some "bytes 200-999/1000",
        contentLength := some "800", acceptRanges := true,
        body := .span 200 (some 999) } := by
  refine ⟨fun size => rfl, ?_, ?_, fun size => rfl, rfl, rfl, rfl, rfl⟩
  · intro size s e h1 h2
    simp only [rangeDecision, Option.elim]
    rw [if_neg (not_le.mpr h1), if_neg (by simp only [decide_eq_true_eq]; omega)]
    simp [jsNumToString]
  · intro size s e h
    by_cases hs : size ≤ s
    · simp [rangeDecision, hs]
    · have he : e < (s : ℤ) := h.resolve_left hs
      simp only [rangeDecision, Option.elim]
      rw [if_neg hs, if_pos (by simp only [decide_eq_true_eq]; omega)]

/-- C5 witness: the in-bounds and out-of-bounds parts applied at the claim's
concrete inputs. -/
theorem videoGET_range_spec_witness :
    rangeDecision 1000 (some 200) (some 299) =
      { status := 206,
        contentRange := some ("bytes " ++ toString 200 ++ "-" ++ toString (299 : ℤ)
          ++ "/" ++ toString 1000),
        contentLength := some (toString ((299 : ℤ) - (200 : ℤ) + 1)),
        acceptRanges := true, body := .span 200 (some 299) } ∧
    rangeDecision 1000 (some 2000) (some 999) = resp416 1000 := by
  exact ⟨videoGET_range_spec.2.1 1000 200 299 (by norm_num) (by norm_num),
         videoGET_range_spec.2.2.1 1000 2000 999 (Or.inl (by norm_num))⟩

end Lantube

namespace Lantube

/-! ## Claim C10 — an explicit end beyond the file size is accepted unclamped -/

/-- C10, confirmed: for `0 ≤ start < size` and `end ≥ size` the request is
accepted — 206 with the *unclamped* end in `Content-Range` and
`Content-Length = end - start + 1`, which strictly exceeds the
`size - start` bytes actually available after `start`; concretely, size
1000 with `bytes=500-1500` answers 206, `Content-Range: bytes
500-1500/1000`, `Content-Length: 1001`. -/
theorem videoGET_unclamped_end :
    (∀ (size s : ℕ) (e : ℤ), s < size → (size : ℤ) ≤ e →
      rangeDecision size (some s) (some e) =
        { status := 206,
          contentRange := some ("bytes " ++ toString s ++ "-" ++ toString e
            ++ "/" ++ toString size),
          contentLength := some (toString (e - (s : ℤ) + 1)),
          acceptRanges := true, body := .span s (some e) } ∧
      (size : ℤ) - (s : ℤ) < e - (s : ℤ) + 1) ∧
    videoGET 1000 (some "bytes=500-1500") =
      { status := 206, contentRange := some "bytes 500-1500/1000",
        contentLength := some "1001", acceptRanges := true,
        body := .span 500 (some 1500) } := by
  constructor
  · intro size s e h1 h2
    constructor
    · simp only [rangeDecision, Option.elim]
      rw [if_neg (not_le.mpr h1), if_neg (by simp only [decide_eq_true_eq]; omega)]
      simp [jsNumToString]
    · omega
  · rfl

/-- C10 witness: the general statement applied at size 1000, `bytes=500-1500`. -/
theorem videoGET_unclamped_end_witness :
    rangeDecision 1000 (some 500) (some 1500) =
      { status := 206,
        contentRange := some ("bytes " ++ toString 500 ++ "-" ++ toString (1500 : ℤ)
          ++ "/" ++ toString 1000),
        contentLength := some (toString ((1500 : ℤ) - (500 : ℤ) + 1)),
        acceptRanges := true, body := .span 500 (some 1500) } ∧
    (1000 : ℤ) - (500 : ℤ) < (1500 : ℤ) - (500 : ℤ) + 1 := by
  exact videoGET_unclamped_end.1 1000 500 1500 (by norm_num) (by norm_num)

end Lantube

namespace Lantube

/-! ## Claims C3 and C7 — smart thumbnail selection -/

theorem promiseAll_isSome {α : Type} (l : List (Option α)) :
    (promiseAll l).isSome = l.all Option.isSome := by
  induction l with
  | nil => rfl
  | cons x xs ih =>
    cases x with
    | none => simp [promiseAll]
    | some a => simp [promiseAll, Option.isSome_map', ih]

theorem promiseAll_length {α : Type} :
    ∀ {l : List (Option α)} {r : List α}, promiseAll l = some r →
      r.length = l.length := by
  intro l
  induction l with
  | nil => intro r h; simp [promiseAll] at h; simp [← h]
  | cons x xs ih =>
    intro r h
    cases x with
    | none => simp [promiseAll] at h
    | some a =>
      cases hp : promiseAll xs with
      | none => rw [promiseAll, hp] at h; simp at h
      | some rest =>
        rw [promiseAll, hp] at h
        simp only [Option.map_some', Option.some.injEq] at h
        simp [← h, ih hp]

theorem smartCandidates_length (out : String) (d : ℚ) (ex : ℕ → ℚ → Option ℕ) :
    (smartCandidates out d ex).length = 5 := by
  rfl

theorem smartCandidates_all_isSome (out : String) (d : ℚ) (ex : ℕ → ℚ → Option ℕ) :
    (smartCandidates out d ex).all Option.isSome =
      ((List.range 5).all fun i =>
        (ex i (clampTime (d * (((i : ℚ) + 1/2) / 5)) d)).isSome) := by
  have h : List.range 5 = [0, 1, 2, 3, 4] := by rfl
  unfold smartCandidates
  rw [h]
  simp [Option.isSome_map']

/-- C3, counterexample: with four of the five candidate extractions
succeeding and one failing, at least one candidate succeeded, yet smart-mode
thumbnail generation fails — `Promise.all` rejects as soon as any member
rejects, so a partial candidate failure aborts the whole operation. -/
theorem makeThumbnailSmart_partial_failure_fails :
    makeThumbnailSmart "out.jpg" 10 oneFailingExtract (fun _ => true) = none ∧
    (smartCandidates "out.jpg" 10 oneFailingExtract).any Option.isSome = true := by
  constructor <;> rfl

/-- C3, amended: in smart mode, thumbnail generation succeeds exactly when
**all five** candidate extractions succeed; any single candidate failure
makes the whole operation fail (the five extractions run under
`Promise.all`, which rejects when any member rejects). -/
theorem makeThumbnailSmart_all_or_nothing :
    ∀ (out : String) (d : ℚ) (ex : ℕ → ℚ → Option ℕ) (ul : String → Bool),
      (makeThumbnailSmart out d ex ul).isSome =
        ((List.range 5).all fun i =>
          (ex i (clampTime (d * (((i : ℚ) + 1/2) / 5)) d)).isSome) := by
  intro out d ex ul
  rw [← smartCandidates_all_isSome, ← promiseAll_isSome]
  cases hp : promiseAll (smartCandidates out d ex) with
  | none =>
    unfold makeThumbnailSmart
    rw [hp]
    rfl
  | some r =>
    cases r with
    | nil =>
      have hlen := promiseAll_length hp
      rw [smartCandidates_length] at hlen
      simp at hlen
    | cons c cs =>
      unfold makeThumbnailSmart
      rw [hp]
      rfl

theorem reduceBest_cons (c y : Candidate) (ys : List Candidate) :
    reduceBest c (y :: ys) = reduceBest (if y.size > c.size then y else c) ys := by
  rfl

/-- `reduce` with strict `>` selects the first-encountered maximum: either no
element beats the seed (result is the seed, everything below it), or the
result sits in the list with everything before it strictly smaller and
everything after it no larger. -/
theorem reduceBest_first_max :
    ∀ (cs : List Candidate) (c : Candidate),
      (reduceBest c cs = c ∧ ∀ x ∈ cs, x.size ≤ c.size) ∨
      (∃ l₁ l₂, cs = l₁ ++ reduceBest c cs :: l₂ ∧
        (∀ x ∈ c :: l₁, x.size < (reduceBest c cs).size) ∧
        (∀ x ∈ l₂, x.size ≤ (reduceBest c cs).size)) := by
  intro cs
  induction cs with
  | nil => intro c; left; exact ⟨rfl, by simp⟩
  | cons y ys ih =>
    intro c
    rw [reduceBest_cons]
    by_cases hy : y.size > c.size
    · rw [if_pos hy]
      rcases ih y with ⟨heq, hall⟩ | ⟨l₁, l₂, hsplit, hlt, hle⟩
      · right
        refine ⟨[], ys, ?_, ?_, ?_⟩
        · rw [heq]; rfl
        · intro x hx
          rw [List.mem_singleton] at hx
          rw [hx, heq]
          exact hy
        · intro x hx
          rw [heq]
          exact hall x hx
      · right
        refine ⟨y :: l₁, l₂, ?_, ?_, hle⟩
        · rw [List.cons_append, ← hsplit]
        · intro x hx
          rcases List.mem_cons.mp hx with hxc | hx₁
          · rw [hxc]
            exact lt_trans hy (hlt y (List.mem_cons_self y l₁))
          · exact hlt x hx₁
    · rw [if_neg hy]
      rcases ih c with ⟨heq, hall⟩ | ⟨l₁, l₂, hsplit, hlt, hle⟩
      · left
        refine ⟨heq, ?_⟩
        intro x hx
        rcases List.mem_cons.mp hx with hxy | hxs
        · rw [hxy]; exact Nat.le_of_not_lt hy
        · exact hall x hxs
      · right
        refine ⟨y :: l₁, l₂, ?_, ?_, hle⟩
        · rw [List.cons_append, ← hsplit]
        · intro x hx
          rcases List.mem_cons.mp hx with hxc | hx₁
          · rw [hxc]
            exact hlt c (List.mem_cons_self c l₁)
          · rcases List.mem_cons.mp hx₁ with hxy | hxl
            · rw [hxy]
              exact lt_of_le_of_lt (Nat.le_of_not_lt hy)
                (hlt c (List.mem_cons_self c l₁))
            · exact hlt x (List.mem_cons_of_mem c hxl)

theorem reduceBest_mem_max (c : Candidate) (cs : List Candidate) :
    reduceBest c cs ∈ c :: cs ∧ ∀ x ∈ c :: cs, x.size ≤ (reduceBest c cs).size := by
  rcases reduceBest_first_max cs c with ⟨heq, hall⟩ | ⟨l₁, l₂, hsplit, hlt, hle⟩
  · constructor
    · rw [heq]; exact List.mem_cons_self c cs
    · intro x hx
      rcases List.mem_cons.mp hx with hxc | hxs
      · rw [hxc, heq]
      · rw [heq]; exact hall x hxs
  · constructor
    · have hm : reduceBest c cs ∈ l₁ ++ reduceBest c cs :: l₂ :=
        List.mem_append_right l₁ (List.mem_cons_self _ l₂)
      rw [← hsplit] at hm
      exact List.mem_cons_of_mem c hm
    · intro x hx
      rcases List.mem_cons.mp hx with hxc | hxs
      · refine le_of_lt (hlt x ?_)
        rw [hxc]
        exact List.mem_cons_self c l₁
      · rw [hsplit] at hxs
        rcases List.mem_append.mp hxs with hx₁ | hx₂
        · exact le_of_lt (hlt x (List.mem_cons_of_mem c hx₁))
        · rcases List.mem_cons.mp hx₂ with hxr | hxl
          · rw [hxr]
          · exact hle x hxl

/-- C7, confirmed: in smart mode with a positive known duration, the five
candidate timestamps `(i + 0.5)/5 · duration` are each clamped into
`[1, max 1 (duration - 0.2)]`; the installed candidate is a maximum of the
candidate list by byte size, with ties broken in favour of the
first-encountered candidate (everything before the selected candidate is
strictly smaller); the removed temporaries are exactly the non-selected
candidates' paths and every removal attempt resolves (a deletion failure
cannot fail the operation); and for byte sizes `[10, 40, 25, 40, 5]` the
candidate at index 1 is installed and the other four temporaries removed,
whatever the unlink outcomes are. -/
theorem makeThumbnailSmart_selection_spec :
    (∀ d : ℚ, 0 < d → ∀ t ∈ thumbTimes d, 1 ≤ t ∧ t ≤ max 1 (d - 1/5)) ∧
    (∀ (cs : List Candidate) (c : Candidate),
      (reduceBest c cs = c ∧ ∀ x ∈ cs, x.size ≤ c.size) ∨
      (∃ l₁ l₂, cs = l₁ ++ reduceBest c cs :: l₂ ∧
        (∀ x ∈ c :: l₁, x.size < (reduceBest c cs).size) ∧
        (∀ x ∈ l₂, x.size ≤ (reduceBest c cs).size))) ∧
    (∀ (out : String) (d : ℚ) (ex : ℕ → ℚ → Option ℕ) (ul : String → Bool)
        (bp : String) (rem : List String) (cl : List (Option Unit)),
      makeThumbnailSmart out d ex ul = some (bp, rem, cl) →
      ∃ c cs, promiseAll (smartCandidates out d ex) = some (c :: cs) ∧
        bp = (reduceBest c cs).path ∧
        (reduceBest c cs ∈ c :: cs ∧
          ∀ x ∈ c :: cs, x.size ≤ (reduceBest c cs).size) ∧
        rem = ((c :: cs).filter
          fun item => item.path ≠ (reduceBest c cs).path).map Candidate.path ∧
        cl.all Option.isSome = true) ∧
    (∀ ul : String → Bool,
      makeThumbnailSmart "o.jpg" 60 fiveSizesExtract ul =
        some ("o.jpg.tmp-1.jpg",
          ["o.jpg.tmp-0.jpg", "o.jpg.tmp-2.jpg", "o.jpg.tmp-3.jpg", "o.jpg.tmp-4.jpg"],
          [some (), some (), some (), some ()])) := by
  refine ⟨?_, fun cs c => reduceBest_first_max cs c, ?_, fun ul => rfl⟩
  · intro d hd t ht
    simp only [thumbTimes, List.mem_map] at ht
    obtain ⟨ratio, _hr, hclamp⟩ := ht
    rw [← hclamp]
    unfold clampTime
    rw [if_neg (not_le.mpr hd)]
    refine ⟨le_min (le_max_right _ _) (le_max_left _ _), min_le_right _ _⟩
  · intro out d ex ul bp rem cl h
    unfold makeThumbnailSmart at h
    cases hp : promiseAll (smartCandidates out d ex) with
    | none => rw [hp] at h; simp at h
    | some r =>
      cases r with
      | nil => rw [hp] at h; simp at h
      | cons c cs =>
        rw [hp] at h
        simp only [Option.some.injEq, Prod.mk.injEq] at h
        obtain ⟨hbp, hrem, hcl⟩ := h
        refine ⟨c, cs, rfl, hbp.symm, reduceBest_mem_max c cs, hrem.symm, ?_⟩
        rw [← hcl]
        simp [unlinkAttempt, List.all_map, Function.comp]

/-- The five smart-mode timestamps for a 60-second video. -/
theorem thumbTimes_sixty : thumbTimes 60 = [6, 18, 30, 42, 54] := by
  have h : List.range 5 = [0, 1, 2, 3, 4] := by rfl
  unfold thumbTimes thumbPicks
  rw [h]
  norm_num [clampTime, min_def, max_def]

/-- C7 witness: the clamping bounds evaluated at duration 60 for the first
sampled timestamp. -/
theorem makeThumbnailSmart_selection_spec_witness :
    1 ≤ (6 : ℚ) ∧ (6 : ℚ) ≤ max 1 ((60 : ℚ) - 1/5) := by
  refine makeThumbnailSmart_selection_spec.1 60 (by norm_num) 6 ?_
  rw [thumbTimes_sixty]
  simp

end Lantube

namespace Lantube

/-! ## Claim C4 — probe failures are not recorded as failures -/

/-- C4, counterexample: a file whose duration extraction fails (`ffprobe`
threw, `probeDuration` returns null) but whose thumbnail generation
succeeds is persisted by `indexSingle` through the **success** upsert:
`thumbError = 0` with a null duration — the claim's "recorded via the
failure upsert with thumbError = true" and "a probe failure is never
persisted as a success record" are both false at this input. -/
theorem indexSingle_probe_failure_success_record :
    (indexSingleState (fun s => s) (fun _ => probeDuration none) (fun _ => true) 0
        sampleFile { db := dbEmpty, thumbs := [] }).db "a.mp4" =
      some { path := "a.mp4", folder := "", name := "a", duration := none,
             createdAt := some 50, thumb := some "thumbs/a.mp4.jpg",
             updatedAt := some 100, thumbError := 0 } := by
  simp only [indexSingleState, probeDuration, successUpsert, getThumbRelPath,
    createdAtOf, jsOrQ, sampleFile, folderOf, nameOf]
  norm_num
  rfl

/-- C4, amended: `probeDuration` catches subprocess errors and maps an
unparsable/non-finite output to null, so a probe failure never throws and
never aborts the pass (`indexSingle` is total here by construction); the
duration stored for the file is null, but the record is written by the
**success** upsert with `thumbError = 0` whenever thumbnail generation
succeeds, and by the failure upsert with `thumbError = 1` (and `thumb`
null) only when thumbnail generation itself throws. -/
theorem indexSingle_probe_failure_spec :
    probeDuration none = none ∧
    probeDuration (some "N/A") = none ∧
    (∀ (hash : String → String) (thumbOk : String → Bool) (now : ℤ)
        (f : FileEntry) (st : SysState), thumbOk f.rel = true →
      (indexSingleState hash (fun _ => none) thumbOk now f st).db f.rel =
        some { path := f.rel, folder := folderOf f.rel, name := nameOf f.rel,
               duration := none, createdAt := some (createdAtOf f now),
               thumb := some (getThumbRelPath hash f.rel),
               updatedAt := some ⌊f.mtimeMs⌋, thumbError := 0 }) ∧
    (∀ (hash : String → String) (thumbOk : String → Bool) (now : ℤ)
        (f : FileEntry) (st : SysState), thumbOk f.rel = false →
      ∃ r, (indexSingleState hash (fun _ => none) thumbOk now f st).db f.rel = some r ∧
        r.thumbError = 1 ∧ r.thumb = none) := by
  refine ⟨rfl, rfl, ?_, ?_⟩
  · intro hash thumbOk now f st h
    simp [indexSingleState, successUpsert, h]
  · intro hash thumbOk now f st h
    simp only [indexSingleState, failureUpsert, h, if_neg, Bool.false_eq_true,
      if_false, if_pos]
    cases hold : st.db f.rel with
    | none => exact ⟨_, rfl, rfl, rfl⟩
    | some old => exact ⟨_, rfl, rfl, rfl⟩

/-- C4 witness: the success-upsert outcome of the amended claim at a
concrete file with a failed probe. -/
theorem indexSingle_probe_failure_spec_witness :
    (indexSingleState (fun s => s) (fun _ => none) (fun _ => true) 0
        sampleFile { db := dbEmpty, thumbs := [] }).db "a.mp4" =
      some { path := "a.mp4", folder := folderOf "a.mp4", name := nameOf "a.mp4",
             duration := none, createdAt := some (createdAtOf sampleFile 0),
             thumb := some (getThumbRelPath (fun s => s) "a.mp4"),
             updatedAt := some ⌊(100 : ℚ)⌋, thumbError := 0 } :=
  indexSingle_probe_failure_spec.2.2.1 (fun s => s) (fun _ => true) 0 sampleFile
    { db := dbEmpty, thumbs := [] } rfl

end Lantube

namespace Lantube

/-! ## Claim C6 — idempotence of the indexing pass -/

theorem indexSingle_db_other (hash : String → String) (probe : String → Option ℚ)
    (thumbOk : String → Bool) (now : ℤ) (f : FileEntry) (st : SysState)
    (p : String) (hp : p ≠ f.rel) :
    (indexSingleState hash probe thumbOk now f st).db p = st.db p := by
  unfold indexSingleState
  cases h : thumbOk f.rel
  · simp [failureUpsert, hp]
  · simp [successUpsert, hp]

theorem indexSingle_db_self (hash : String → String) (probe : String → Option ℚ)
    (thumbOk : String → Bool) (now : ℤ) (f : FileEntry) (st : SysState) :
    (indexSingleState hash probe thumbOk now f st).db f.rel =
      some (indexedRow hash probe thumbOk now f (st.db f.rel)) := by
  unfold indexSingleState indexedRow
  cases h : thumbOk f.rel
  · simp only [Bool.false_eq_true, if_false]
    show failureUpsert st.db f.rel (folderOf f.rel) (nameOf f.rel) ⌊f.mtimeMs⌋ f.rel = _
    unfold failureUpsert
    rw [if_pos rfl]
    cases hold : st.db f.rel <;> rfl
  · simp only [if_true]
    show successUpsert st.db f.rel (folderOf f.rel) (nameOf f.rel)
        (probe f.rel) (createdAtOf f now) (getThumbRelPath hash f.rel) ⌊f.mtimeMs⌋ f.rel = _
    unfold successUpsert
    rw [if_pos rfl]

theorem indexSingle_thumbs_mono (hash : String → String) (probe : String → Option ℚ)
    (thumbOk : String → Bool) (now : ℤ) (f : FileEntry) (st : SysState)
    (x : String) (hx : x ∈ st.thumbs) :
    x ∈ (indexSingleState hash probe thumbOk now f st).thumbs := by
  unfold indexSingleState
  cases h : thumbOk f.rel
  · simpa using hx
  · simp only [if_true]
    exact List.mem_cons_of_mem _ hx

theorem indexSingle_thumb_self (hash : String → String) (probe : String → Option ℚ)
    (thumbOk : String → Bool) (now : ℤ) (f : FileEntry) (st : SysState)
    (h : thumbOk f.rel = true) :
    getThumbRelPath hash f.rel ∈ (indexSingleState hash probe thumbOk now f st).thumbs := by
  unfold indexSingleState
  rw [h]
  exact List.mem_cons_self _ _

theorem runTasks_db_other (hash : String → String) (probe : String → Option ℚ)
    (thumbOk : String → Bool) (now : ℤ) :
    ∀ (fs : List FileEntry) (st : SysState) (p : String),
      (∀ g ∈ fs, g.rel ≠ p) →
      (runTasks hash probe thumbOk now fs st).db p = st.db p := by
  intro fs
  induction fs with
  | nil => intro st p _; rfl
  | cons g rest ih =>
    intro st p h
    show (runTasks hash probe thumbOk now rest
        (indexSingleState hash probe thumbOk now g st)).db p = st.db p
    rw [ih (indexSingleState hash probe thumbOk now g st) p
      (fun x hx => h x (List.mem_cons_of_mem g hx))]
    exact indexSingle_db_other hash probe thumbOk now g st p
      (Ne.symm (h g (List.mem_cons_self g rest)))

theorem runTasks_thumbs_mono (hash : String → String) (probe : String → Option ℚ)
    (thumbOk : String → Bool) (now : ℤ) :
    ∀ (fs : List FileEntry) (st : SysState) (x : String),
      x ∈ st.thumbs → x ∈ (runTasks hash probe thumbOk now fs st).thumbs := by
  intro fs
  induction fs with
  | nil => intro st x hx; exact hx
  | cons g rest ih =>
    intro st x hx
    exact ih (indexSingleState hash probe thumbOk now g st) x
      (indexSingle_thumbs_mono hash probe thumbOk now g st x hx)

theorem runTasks_db_mem (hash : String → String) (probe : String → Option ℚ)
    (thumbOk : String → Bool) (now : ℤ) :
    ∀ (fs : List FileEntry) (st : SysState) (f : FileEntry),
      fs.Pairwise (fun a b => a.rel ≠ b.rel) → f ∈ fs →
      (runTasks hash probe thumbOk now fs st).db f.rel =
        some (indexedRow hash probe thumbOk now f (st.db f.rel)) := by
  intro fs
  induction fs with
  | nil => intro st f _ hf; cases hf
  | cons g rest ih =>
    intro st f hpw hf
    obtain ⟨hg, hpw'⟩ := List.pairwise_cons.mp hpw
    rcases List.mem_cons.mp hf with hfg | hfr
    · subst hfg
      show (runTasks hash probe thumbOk now rest
          (indexSingleState hash probe thumbOk now f st)).db f.rel = _
      rw [runTasks_db_other hash probe thumbOk now rest _ f.rel
        (fun x hx => Ne.symm (hg x hx))]
      exact indexSingle_db_self hash probe thumbOk now f st
    · show (runTasks hash probe thumbOk now rest
          (indexSingleState hash probe thumbOk now g st)).db f.rel = _
      rw [ih (indexSingleState hash probe thumbOk now g st) f hpw' hfr,
        indexSingle_db_other hash probe thumbOk now g st f.rel
          (Ne.symm (hg f hfr))]

theorem runTasks_thumb_mem (hash : String → String) (probe : String → Option ℚ)
    (thumbOk : String → Bool) (now : ℤ) :
    ∀ (fs : List FileEntry) (st : SysState) (f : FileEntry),
      f ∈ fs → thumbOk f.rel = true →
      getThumbRelPath hash f.rel ∈ (runTasks hash probe thumbOk now fs st).thumbs := by
  intro fs
  induction fs with
  | nil => intro st f hf; cases hf
  | cons g rest ih =>
    intro st f hf ht
    rcases List.mem_cons.mp hf with hfg | hfr
    · subst hfg
      exact runTasks_thumbs_mono hash probe thumbOk now rest _ _
        (indexSingle_thumb_self hash probe thumbOk now f st ht)
    · exact ih (indexSingleState hash probe thumbOk now g st) f hfr ht

theorem pairwise_rel_inj {files : List FileEntry}
    (h : files.Pairwise fun a b => a.rel ≠ b.rel) :
    ∀ a ∈ files, ∀ b ∈ files, a.rel = b.rel → a = b := by
  induction files with
  | nil => intro a ha; cases ha
  | cons x xs ih =>
    intro a ha b hb hEq
    obtain ⟨hx, hpw⟩ := List.pairwise_cons.mp h
    rcases List.mem_cons.mp ha with rfl | ha'
    · rcases List.mem_cons.mp hb with rfl | hb'
      · rfl
      · exact absurd hEq (hx b hb')
    · rcases List.mem_cons.mp hb with rfl | hb'
      · exact absurd hEq.symm (hx a ha')
      · exact ih hpw a ha' b hb' hEq

/-- `needsUpdate` on a present record, unfolded. -/
theorem needsUpdate_some (r : Row) (t : Bool) (u : ℤ) :
    needsUpdate (some r) t u =
      ((!(r.thumbError == 1) && (!t || jsFalsyNum r.duration)) ||
        decide (r.updatedAt.getD 0 < u)) := by
  rfl

/-- `needsUpdate = false` is preserved when the thumbnail artifact can only
appear (never vanish) between the two evaluations. -/
theorem needsUpdate_false_mono (e : Option Row) (t t' : Bool) (u : ℤ)
    (h : needsUpdate e t u = false) (hm : t = true → t' = true) :
    needsUpdate e t' u = false := by
  cases e with
  | none => simp [needsUpdate] at h
  | some r =>
    rw [needsUpdate_some] at h ⊢
    rcases Bool.or_eq_false_iff.mp h with ⟨h1, h2⟩
    rw [Bool.or_eq_false_iff]
    refine ⟨?_, h2⟩
    rcases Bool.and_eq_false_iff.mp h1 with he | ht
    · rw [he, Bool.false_and]
    · rcases Bool.or_eq_false_iff.mp ht with ⟨hnt, hf⟩
      have htt : t = true := by revert hnt; cases t <;> simp
      rw [hm htt, hf]
      simp

/-- Membership in the work list, unfolded. -/
theorem mem_workList {hash : String → String} {files : List FileEntry}
    {st : SysState} {f : FileEntry} :
    f ∈ workList hash files st ↔ f ∈ files ∧
      needsUpdate (st.db f.rel)
        (decide (getThumbRelPath hash f.rel ∈ st.thumbs)) ⌊f.mtimeMs⌋ = true := by
  unfold workList
  exact List.mem_filter

/-- C6, amended: running a full pass twice with no filesystem change between
the runs yields an identical state and an empty second work list, for every
starting state, **provided** every discovered file either probes to a
truthy (non-null, non-zero) duration or fails thumbnail generation.  (A
file persisted as a success record with a null or zero duration is
re-dispatched by every pass — see the counterexample — though re-running it
against unchanged oracles rewrites the same values.) -/
theorem buildIndex_idempotent :
    ∀ (hash : String → String) (probe : String → Option ℚ) (thumbOk : String → Bool)
      (now now' : ℤ) (files : List FileEntry) (st0 : SysState),
      files.Pairwise (fun a b => a.rel ≠ b.rel) →
      (∀ f ∈ files, jsFalsyNum (probe f.rel) = false ∨ thumbOk f.rel = false) →
      workList hash files (buildIndexPass hash probe thumbOk now files st0) = [] ∧
      buildIndexPass hash probe thumbOk now' files
          (buildIndexPass hash probe thumbOk now files st0) =
        buildIndexPass hash probe thumbOk now files st0 := by
  intro hash probe thumbOk now now' files st0 hpw hgood
  have hpwf : (workList hash files st0).Pairwise (fun a b => a.rel ≠ b.rel) :=
    List.Pairwise.filter _ hpw
  -- the state after the deletion loop of the first pass
  have hD : buildIndexPass hash probe thumbOk now files st0 =
      runTasks hash probe thumbOk now (workList hash files st0)
        { db := fun p => if p ∈ files.map FileEntry.rel then st0.db p else none,
          thumbs := st0.thumbs } := rfl
  -- every discovered file is non-stale against the first pass's result
  have hA : ∀ f ∈ files,
      needsUpdate ((buildIndexPass hash probe thumbOk now files st0).db f.rel)
        (decide (getThumbRelPath hash f.rel ∈
          (buildIndexPass hash probe thumbOk now files st0).thumbs))
        ⌊f.mtimeMs⌋ = false := by
    intro f hf
    by_cases hw : needsUpdate (st0.db f.rel)
        (decide (getThumbRelPath hash f.rel ∈ st0.thumbs)) ⌊f.mtimeMs⌋ = true
    · -- the file was dispatched: its fresh record is non-stale
      have hfw : f ∈ workList hash files st0 := mem_workList.mpr ⟨hf, hw⟩
      have hdb := runTasks_db_mem hash probe thumbOk now (workList hash files st0)
        { db := fun p => if p ∈ files.map FileEntry.rel then st0.db p else none,
          thumbs := st0.thumbs } f hpwf hfw
      rw [hD, hdb]
      cases ht : thumbOk f.rel
      · -- thumbnail generation threw: failure row, retried only on drift
        unfold indexedRow
        rw [ht]
        simp only [Bool.false_eq_true, if_false]
        cases (if f.rel ∈ files.map FileEntry.rel then st0.db f.rel else none) with
        | none => rw [needsUpdate_some]; simp
        | some o => rw [needsUpdate_some]; simp
      · -- success row: truthy duration, fresh thumbnail, fresh watermark
        have hth : getThumbRelPath hash f.rel ∈
            (runTasks hash probe thumbOk now (workList hash files st0)
              { db := fun p => if p ∈ files.map FileEntry.rel then st0.db p else none,
                thumbs := st0.thumbs }).thumbs :=
          runTasks_thumb_mem hash probe thumbOk now (workList hash files st0) _ f hfw ht
        have hth' : decide (getThumbRelPath hash f.rel ∈
            (runTasks hash probe thumbOk now (workList hash files st0)
              { db := fun p => if p ∈ files.map FileEntry.rel then st0.db p else none,
                thumbs := st0.thumbs }).thumbs) = true := decide_eq_true hth
        have hfal : jsFalsyNum (probe f.rel) = false := by
          rcases hgood f hf with hg | hg
          · exact hg
          · rw [ht] at hg; cases hg
        unfold indexedRow
        rw [ht, if_pos rfl, needsUpdate_some]
        simp only [hth', hfal]
        simp
    · -- the file was not dispatched: its old record is still non-stale
      have hnw : needsUpdate (st0.db f.rel)
          (decide (getThumbRelPath hash f.rel ∈ st0.thumbs)) ⌊f.mtimeMs⌋ = false := by
        revert hw
        cases needsUpdate (st0.db f.rel)
          (decide (getThumbRelPath hash f.rel ∈ st0.thumbs)) ⌊f.mtimeMs⌋ <;> simp
      have hne : ∀ g ∈ workList hash files st0, g.rel ≠ f.rel := by
        intro g hgw hEq
        obtain ⟨hgf, hgt⟩ := mem_workList.mp hgw
        have hgef : g = f := pairwise_rel_inj hpw g hgf f hf hEq
        rw [hgef, hnw] at hgt
        cases hgt
      have hdb : (buildIndexPass hash probe thumbOk now files st0).db f.rel =
          st0.db f.rel := by
        rw [hD, runTasks_db_other hash probe thumbOk now _ _ f.rel hne]
        exact if_pos (List.mem_map_of_mem FileEntry.rel hf)
      rw [hdb]
      refine needsUpdate_false_mono _ _ _ _ hnw ?_
      intro hmem
      refine decide_eq_true ?_
      rw [hD]
      exact runTasks_thumbs_mono hash probe thumbOk now _ _ _ (of_decide_eq_true hmem)
  -- the second pass has an empty work list
  have hB : workList hash files (buildIndexPass hash probe thumbOk now files st0) = [] := by
    unfold workList
    rw [List.filter_eq_nil_iff]
    intro f hf
    rw [hA f hf]
    simp
  -- rows for undiscovered paths are gone after the first pass
  have hout : ∀ p, p ∉ files.map FileEntry.rel →
      (buildIndexPass hash probe thumbOk now files st0).db p = none := by
    intro p hp
    have hne : ∀ g ∈ workList hash files st0, g.rel ≠ p := by
      intro g hgw hEq
      exact hp (hEq ▸ List.mem_map_of_mem FileEntry.rel (mem_workList.mp hgw).1)
    rw [hD, runTasks_db_other hash probe thumbOk now _ _ p hne]
    exact if_neg hp
  refine ⟨hB, ?_⟩
  have h2 : buildIndexPass hash probe thumbOk now' files
      (buildIndexPass hash probe thumbOk now files st0) =
      runTasks hash probe thumbOk now'
        (workList hash files (buildIndexPass hash probe thumbOk now files st0))
        { db := fun p => if p ∈ files.map FileEntry.rel then
            (buildIndexPass hash probe thumbOk now files st0).db p else none,
          thumbs := (buildIndexPass hash probe thumbOk now files st0).thumbs } := rfl
  rw [h2, hB]
  refine SysState.ext ?_ rfl
  funext p
  show (if p ∈ files.map FileEntry.rel then
      (buildIndexPass hash probe thumbOk now files st0).db p else none) =
    (buildIndexPass hash probe thumbOk now files st0).db p
  by_cases hp : p ∈ files.map FileEntry.rel
  · rw [if_pos hp]
  · rw [if_neg hp, hout p hp]

/-- C6, counterexample: a file whose first pass stored a **null** duration
with `thumbError = 0` (probe failed, thumbnail succeeded) is dispatched
again by the very next pass although nothing on disk changed — the claim's
"the second pass dispatches no per-file work ... including files whose
first pass stored a null duration ... with thumbError = 0" is false. -/
theorem buildIndex_not_idempotent_on_null_duration :
    workList (fun s => s) [sampleFile]
        (buildIndexPass (fun s => s) (fun _ => none) (fun _ => true) 0 [sampleFile]
          { db := dbEmpty, thumbs := [] }) = [sampleFile] := by
  rfl

/-- C6 witness: the amended idempotence at one file probing to duration 5. -/
theorem buildIndex_idempotent_witness :
    workList (fun s => s) [sampleFile]
        (buildIndexPass (fun s => s) (fun _ => some 5) (fun _ => true) 0 [sampleFile]
          { db := dbEmpty, thumbs := [] }) = [] ∧
    buildIndexPass (fun s => s) (fun _ => some 5) (fun _ => true) 1 [sampleFile]
        (buildIndexPass (fun s => s) (fun _ => some 5) (fun _ => true) 0 [sampleFile]
          { db := dbEmpty, thumbs := [] }) =
      buildIndexPass (fun s => s) (fun _ => some 5) (fun _ => true) 0 [sampleFile]
        { db := dbEmpty, thumbs := [] } :=
  buildIndex_idempotent (fun s => s) (fun _ => some 5) (fun _ => true) 0 1 [sampleFile]
    { db := dbEmpty, thumbs := [] } (by simp) (by intro f _; left; rfl)

end Lantube

namespace Lantube

/-! ## Claim C8 — the path safety resolver -/

theorem splitChar_cons (c x : Char) (xs : List Char) :
    splitChar c (x :: xs) =
      if x = c then [] :: splitChar c xs
      else (x :: (splitChar c xs).headD []) :: (splitChar c xs).tail := by
  rfl

theorem mem_splitChar (c : Char) :
    ∀ (l : List Char) (s : List Char), s ∈ splitChar c l → c ∉ s := by
  intro l
  induction l with
  | nil =>
    intro s hs hc
    simp only [splitChar, List.foldr_nil, List.mem_singleton] at hs
    rw [hs] at hc
    exact List.not_mem_nil c hc
  | cons x xs ih =>
    intro s hs hc
    rw [splitChar_cons] at hs
    by_cases hx : x = c
    · rw [if_pos hx] at hs
      rcases List.mem_cons.mp hs with rfl | hs'
      · exact List.not_mem_nil c hc
      · exact ih s hs' hc
    · rw [if_neg hx] at hs
      rcases List.mem_cons.mp hs with rfl | hs'
      · rcases List.mem_cons.mp hc with rfl | hc'
        · exact hx rfl
        · cases hr : splitChar c xs with
          | nil => rw [hr] at hc'; exact List.not_mem_nil c hc'
          | cons h t =>
            rw [hr] at hc'
            exact ih h (hr ▸ List.mem_cons_self h t) hc'
      · cases hr : splitChar c xs with
        | nil => rw [hr] at hs'; exact List.not_mem_nil s hs'
        | cons h t =>
          rw [hr] at hs'
          exact ih s (hr ▸ List.mem_cons_of_mem h hs') hc

theorem mem_splitSegs (l : List Char) (s : Seg) (hs : s ∈ splitSegs l) :
    s ≠ [] ∧ '/' ∉ s := by
  unfold splitSegs at hs
  obtain ⟨hm, hne⟩ := List.mem_filter.mp hs
  exact ⟨by simpa using hne, mem_splitChar '/' l s hm⟩

theorem mem_normFold :
    ∀ (segs : List Seg) (acc : List Seg) (s : Seg),
      s ∈ segs.foldl
        (fun acc seg =>
          if seg = ['.'] then acc
          else if seg = ['.', '.'] then acc.dropLast
          else acc ++ [seg]) acc →
      s ∈ acc ∨ s ∈ segs := by
  intro segs
  induction segs with
  | nil => intro acc s h; exact Or.inl h
  | cons seg rest ih =>
    intro acc s h
    rcases ih _ s h with hacc | hrest
    · dsimp only at hacc
      split_ifs at hacc with h1 h2
      · exact Or.inl hacc
      · exact Or.inl (List.dropLast_subset acc hacc)
      · rcases List.mem_append.mp hacc with hm | hm
        · exact Or.inl hm
        · right
          rw [List.mem_singleton.mp hm]
          exact List.mem_cons_self seg rest
    · exact Or.inr (List.mem_cons_of_mem seg hrest)

theorem mem_normSegs (segs : List Seg) (s : Seg) (h : s ∈ normSegs segs) :
    s ∈ segs := by
  unfold normSegs at h
  rcases mem_normFold segs [] s h with h0 | h1
  · exact absurd h0 (List.not_mem_nil s)
  · exact h1

theorem mem_pathResolve (base p : List Char) (s : Seg)
    (h : s ∈ pathResolve base p) : s ≠ [] ∧ '/' ∉ s := by
  unfold pathResolve at h
  split_ifs at h
  · exact mem_splitSegs p s (mem_normSegs _ s h)
  · rcases List.mem_append.mp (mem_normSegs _ s h) with h1 | h1
    · exact mem_splitSegs base s h1
    · exact mem_splitSegs p s h1

theorem commonLen_le_left : ∀ (a b : List Seg), commonLen a b ≤ a.length := by
  intro a
  induction a with
  | nil => intro b; cases b <;> simp [commonLen]
  | cons x as ih =>
    intro b
    cases b with
    | nil => simp [commonLen]
    | cons y bs =>
      by_cases h : x = y
      · simpa [commonLen, h] using ih bs
      · simp [commonLen, h]

theorem commonLen_eq_length_iff : ∀ (a b : List Seg),
    commonLen a b = a.length ↔ a <+: b := by
  intro a
  induction a with
  | nil => intro b; simp [commonLen]
  | cons x as ih =>
    intro b
    cases b with
    | nil => simp [commonLen]
    | cons y bs =>
      by_cases h : x = y
      · subst h
        simp [commonLen, List.cons_prefix_cons, ih bs]
      · simp [commonLen, h, List.cons_prefix_cons]

theorem dotdot_prefix_join_cons {s : Seg} (rest : List Seg)
    (h : ['.', '.'] <+: s) : ['.', '.'] <+: joinSegs (s :: rest) :=
  h.trans (List.prefix_append s (joinTail rest))

theorem dotdot_not_prefix_join {s : Seg} (rest : List Seg) (hne : s ≠ [])
    (hs : ¬ ['.', '.'] <+: s) : ¬ ['.', '.'] <+: joinSegs (s :: rest) := by
  intro h
  cases s with
  | nil => exact hne rfl
  | cons c s' =>
    cases s' with
    | nil =>
      cases rest with
      | nil =>
        have hlen := h.length_le
        simp [joinSegs, joinTail] at hlen
      | cons r rs =>
        rw [show joinSegs ([c] :: (r :: rs)) = c :: '/' :: (r ++ joinTail rs) from rfl] at h
        obtain ⟨_, h2⟩ := List.cons_prefix_cons.mp h
        obtain ⟨hd, _⟩ := List.cons_prefix_cons.mp h2
        exact absurd hd (by decide)
    | cons c₂ s'' =>
      rw [show joinSegs ((c :: c₂ :: s'') :: rest) = c :: c₂ :: (s'' ++ joinTail rest)
        from rfl] at h
      obtain ⟨hc, h2⟩ := List.cons_prefix_cons.mp h
      obtain ⟨hc₂, _⟩ := List.cons_prefix_cons.mp h2
      exact hs (by rw [← hc, ← hc₂]; exact ⟨s'', rfl⟩)

theorem join_head_ne_slash {s : Seg} (rest : List Seg) (hne : s ≠ [])
    (hs : '/' ∉ s) : jsIsAbsolute (joinSegs (s :: rest)) = false := by
  cases s with
  | nil => exact absurd rfl hne
  | cons c s' =>
    rw [show joinSegs ((c :: s') :: rest) = c :: (s' ++ joinTail rest) from rfl]
    unfold jsIsAbsolute
    simp only [List.head?_cons, Option.some.injEq, beq_eq_false_iff_ne, ne_eq]
    intro hc
    exact hs (hc ▸ List.mem_cons_self c s')

/-- C8, counterexample: resolving the relative name `"..b"` against the root
`"/data"` canonicalizes to `"/data/..b"`, which lies **inside** the root,
yet the resolver throws — `path.relative` returns the string `"..b"`, whose
first two characters are `".."`, so the `rel.startsWith("..")` test rejects
it.  The claimed "throws exactly when the canonicalized result lies outside
the root" is therefore false. -/
theorem resolveSafePath_claim_false_inside_root :
    resolveSafePath "/data" "..b" = Except.error "Invalid path" ∧
    normSegs (splitSegs "/data".data) <+: pathResolve "/data".data "..b".data ∧
    absString (pathResolve "/data".data "..b".data) = "/data/..b" := by
  refine ⟨rfl, ?_, rfl⟩
  decide

/-- C8, amended: the resolver returns the canonical absolute path exactly
when the canonicalized result lies inside the root **and** the first path
segment below the root does not itself begin with two dots; it throws
`InvalidPath` for every path whose canonicalized result lies outside the
root (covering `..` traversal and absolute-path injection) and additionally
for in-root names whose first segment begins with `".."` (e.g. `"..b"`).
The resolver is a pure function of its two string arguments — it performs
no filesystem access by construction. -/
theorem resolveSafePath_spec :
    ∀ (targetDir relPath : String),
      resolveSafePath targetDir relPath =
        if (normSegs (splitSegs targetDir.data) <+: pathResolve targetDir.data relPath.data)
            ∧ ¬ ['.', '.'] <+:
              ((pathResolve targetDir.data relPath.data).drop
                (normSegs (splitSegs targetDir.data)).length).headD []
        then Except.ok (absString (pathResolve targetDir.data relPath.data))
        else Except.error "Invalid path" := by
  intro td rp
  simp only [resolveSafePath]
  by_cases hpre : normSegs (splitSegs td.data) <+: pathResolve td.data rp.data
  · have hc : commonLen (normSegs (splitSegs td.data)) (pathResolve td.data rp.data) =
        (normSegs (splitSegs td.data)).length :=
      (commonLen_eq_length_iff _ _).mpr hpre
    have hrel : pathRelativeSegs (normSegs (splitSegs td.data))
        (pathResolve td.data rp.data) =
        (pathResolve td.data rp.data).drop (normSegs (splitSegs td.data)).length := by
      unfold pathRelativeSegs
      rw [hc, Nat.sub_self]
      rfl
    rw [hrel]
    cases hd : (pathResolve td.data rp.data).drop (normSegs (splitSegs td.data)).length with
    | nil =>
      simp [joinSegs, jsIsAbsolute, hpre, List.prefix_nil]
    | cons s rest =>
      have hmem : s ∈ (pathResolve td.data rp.data).drop
          (normSegs (splitSegs td.data)).length := by
        rw [hd]
        exact List.mem_cons_self s rest
      have hsprops := mem_pathResolve td.data rp.data s (List.drop_subset _ _ hmem)
      by_cases hdot : ['.', '.'] <+: s
      · have hj : ['.', '.'].isPrefixOf (joinSegs (s :: rest)) = true :=
          List.isPrefixOf_iff_prefix.mpr (dotdot_prefix_join_cons rest hdot)
        rw [hj]
        simp [hdot]
      · have hj1 : ['.', '.'].isPrefixOf (joinSegs (s :: rest)) = false := by
          rcases hb : ['.', '.'].isPrefixOf (joinSegs (s :: rest)) with _ | _
          · rfl
          · exact absurd (List.isPrefixOf_iff_prefix.mp hb)
              (dotdot_not_prefix_join rest hsprops.1 hdot)
        have hj2 : jsIsAbsolute (joinSegs (s :: rest)) = false :=
          join_head_ne_slash rest hsprops.1 hsprops.2
        rw [hj1, hj2]
        simp [hpre, hdot]
  · have hlt : commonLen (normSegs (splitSegs td.data)) (pathResolve td.data rp.data) <
        (normSegs (splitSegs td.data)).length :=
      lt_of_le_of_ne (commonLen_le_left _ _)
        fun hEq => hpre ((commonLen_eq_length_iff _ _).mp hEq)
    obtain ⟨k, hk⟩ : ∃ k, (normSegs (splitSegs td.data)).length -
        commonLen (normSegs (splitSegs td.data)) (pathResolve td.data rp.data) = k + 1 :=
      ⟨(normSegs (splitSegs td.data)).length -
        commonLen (normSegs (splitSegs td.data)) (pathResolve td.data rp.data) - 1,
        by omega⟩
    have htail : pathRelativeSegs (normSegs (splitSegs td.data))
        (pathResolve td.data rp.data) =
        ['.', '.'] :: (List.replicate k ['.', '.'] ++
          (pathResolve td.data rp.data).drop
            (commonLen (normSegs (splitSegs td.data)) (pathResolve td.data rp.data))) := by
      unfold pathRelativeSegs
      rw [hk, List.replicate_succ]
      rfl
    rw [htail]
    have hj : ['.', '.'].isPrefixOf (joinSegs (['.', '.'] ::
        (List.replicate k ['.', '.'] ++
          (pathResolve td.data rp.data).drop
            (commonLen (normSegs (splitSegs td.data))
              (pathResolve td.data rp.data))))) = true :=
      List.isPrefixOf_iff_prefix.mpr (dotdot_prefix_join_cons _ (List.prefix_refl _))
    rw [hj]
    simp [hpre]

end Lantube
